import Mathlib

/-!
Verification of the post-generation git-orchestration hook
(`hooks/post_gen_project.py`).

The script is a sequential orchestration of filesystem mutations and git
commands.  We embed it shallowly:

* the project working tree is a finite association list from paths
  (component lists) to file contents;
* the git repository is a record holding the branch table (branch name to
  commit history, newest first), the checked-out branch, the working tree,
  a fresh-commit-id counter and the optional `origin` remote;
* each shell-out of the script becomes a Lean function on that record;
  fallible commands return `Option`, and `with suppress(...)` becomes
  `Option.getD`/explicit matching;
* external tools that the script merely invokes (uv, pre-commit, gh) have
  no effect on the modelled repository state; where their observable
  outcome matters (gh protocol query, push results, init failures) it is
  passed in as an explicit environment value.

The modelled run environment for the end-to-end function `runMain` is:
git available, `git init -b` supported, uv / pre-commit / gh absent.
Pre-commit hooks are modelled as not modifying the working tree.
-/

-- ## Filesystem model

/-- A path, as its list of components relative to the project directory. -/
abbrev FPath := List String

/-- The top-level name of a path (what `Path.iterdir` enumerates). -/
def topName : FPath → String
  | [] => ""
  | c :: _ => c

/-- `underDir d p` is true when `p` is `d` itself or lies below directory `d`. -/
def underDir : FPath → FPath → Bool
  | [], _ => true
  | _ :: _, [] => false
  | a :: as, b :: bs => decide (a = b) && underDir as bs

/-- One cell of the generated notebook stub. The source always emits an
empty metadata object for the cell, so no field is kept for it. -/
structure NotebookCell where
  cell_type : String
  source : List String
deriving DecidableEq

/-- `metadata.kernelspec` of the notebook stub. -/
structure Kernelspec where
  display_name : String
  language : String
  name : String
deriving DecidableEq

/-- `metadata.language_info` of the notebook stub. -/
structure LanguageInfo where
  name : String
  version : String
deriving DecidableEq

/-- `metadata` of the notebook stub. -/
structure NotebookMeta where
  kernelspec : Kernelspec
  language_info : LanguageInfo
deriving DecidableEq

/-- The notebook JSON document, as structured data. -/
structure Notebook where
  cells : List NotebookCell
  metadata : NotebookMeta
  nbformat : Nat
  nbformat_minor : Nat
deriving DecidableEq

/-- Contents of a file in the working tree. -/
inductive FileData where
  | text : String → FileData
  | nb : Notebook → FileData
deriving DecidableEq

/-- A working tree: a finite association list path to contents. -/
abbrev FS := List (FPath × FileData)

/-- Association-list lookup (first match). -/
def lk {κ α : Type} [DecidableEq κ] : List (κ × α) → κ → Option α
  | [], _ => none
  | e :: rest, k => if e.1 = k then some e.2 else lk rest k

/-- Remove the file at exactly path `p` (models `Path.unlink` under
`suppress(FileNotFoundError)`). -/
def delFile : FS → FPath → FS
  | [], _ => []
  | e :: rest, p => if e.1 = p then delFile rest p else e :: delFile rest p

/-- Write file `p` with contents `v` (models `Path.write_text`). -/
def setFile (fs : FS) (p : FPath) (v : FileData) : FS :=
  delFile fs p ++ [(p, v)]

/-- Remove everything at or below `p` (models `shutil.rmtree`). -/
def delDir : FS → FPath → FS
  | [], _ => []
  | e :: rest, p => if underDir p e.1 then delDir rest p else e :: delDir rest p

/-- Models `Path.exists`: some tree entry is `p` or lies below it. -/
def pathExists (fs : FS) (p : FPath) : Bool :=
  fs.any (fun e => underDir p e.1)

-- ## Repository model

/-- A commit: fresh id, message, snapshot of the committed tree. -/
structure Commit where
  id : Nat
  message : String
  tree : FS
deriving DecidableEq

/-- The modelled git repository plus working tree.  `log` records, for each
branch created with `checkout -b`, the history it was created from (its
base); it exists purely as observation and is never read by the script
model itself. -/
structure RepoState where
  branches : List (String × List Commit)
  current : String
  worktree : FS
  nextId : Nat
  remoteOrigin : Option String
  log : List (String × List Commit)
deriving DecidableEq

/-- History of a branch, newest commit first (empty for unborn branches). -/
def branchHistory (s : RepoState) (b : String) : List Commit :=
  (lk s.branches b).getD []

/-- Tree of the newest commit of a history. -/
def tipTree : List Commit → FS
  | [] => []
  | c :: _ => c.tree

/-- Tree at the tip of the checked-out branch. -/
def currentTip (s : RepoState) : FS :=
  tipTree (branchHistory s s.current)

/-- Replace (or append) the history bound to branch `b`. -/
def setBranch : List (String × List Commit) → String → List Commit → List (String × List Commit)
  | [], b, h => [(b, h)]
  | e :: rest, b, h => if e.1 = b then (b, h) :: rest else e :: setBranch rest b h

/-- `git init -b branch` on a directory holding `wt`. -/
def initRepo (branch : String) (wt : FS) : RepoState :=
  { branches := [(branch, [])], current := branch, worktree := wt,
    nextId := 0, remoteOrigin := none, log := [] }

/-- `git checkout existing-branch` / `git switch existing-branch` on a clean
tree: fails (`none`) when the branch does not exist; otherwise moves to it
and resets the working tree to its tip (kept unchanged for an unborn
branch). -/
def checkoutExisting (s : RepoState) (b : String) : Option RepoState :=
  match lk s.branches b with
  | none => none
  | some h =>
      some { s with current := b, worktree := if h.isEmpty then s.worktree else tipTree h }

/-- `with suppress(CalledProcessError): git checkout b`. -/
def checkoutSuppressed (s : RepoState) (b : String) : RepoState :=
  (checkoutExisting s b).getD s

/-- `git checkout -b b`: fails when `b` already exists; otherwise creates it
at the current tip, keeps the working tree, and records the base in `log`. -/
def checkoutNewBranch (s : RepoState) (b : String) : Option RepoState :=
  if (lk s.branches b).isSome then none
  else
    some { s with
            branches := (b, branchHistory s s.current) :: s.branches,
            current := b,
            log := s.log ++ [(b, branchHistory s s.current)] }

/-- `git commit` of snapshot `tree` onto the checked-out branch. -/
def commitOnTree (s : RepoState) (tree : FS) (msg : String) : RepoState :=
  { s with
      branches := setBranch s.branches s.current
        (⟨s.nextId, msg, tree⟩ :: branchHistory s s.current),
      nextId := s.nextId + 1 }

/-- `git commit` of the staged working tree onto the checked-out branch. -/
def commitOn (s : RepoState) (msg : String) : RepoState :=
  commitOnTree s s.worktree msg

/-- How a commit site of the script dealt with the commit command. -/
inductive CommitTrace where
  | skippedByStatusCheck
  | committed
  | exitCodeSuppressed
deriving DecidableEq

/-- `_safe_commit`, instrumented: `git add -A`, then `git status
--porcelain` (empty exactly when the working tree equals the tip), and
`git commit` only when the status output was non-empty. -/
def safeCommitT (s : RepoState) (msg : String) : RepoState × CommitTrace :=
  if s.worktree = currentTip s then (s, CommitTrace.skippedByStatusCheck)
  else (commitOn s msg, CommitTrace.committed)

/-- `_safe_commit`: the state effect of `safeCommitT`. -/
def safeCommit (s : RepoState) (msg : String) : RepoState :=
  (safeCommitT s msg).1

/-- The initial-commit pattern of `__main__`, instrumented: `git add .`,
then `git commit` unconditionally inside `suppress(CalledProcessError)` —
an empty stage makes the commit command exit non-zero and that exit code is
swallowed. -/
def initialCommitT (s : RepoState) (msg : String) : RepoState × CommitTrace :=
  if s.worktree = currentTip s then (s, CommitTrace.exitCodeSuppressed)
  else (commitOn s msg, CommitTrace.committed)

/-- The state effect of the initial-commit pattern. -/
def commitAllSuppressed (s : RepoState) (msg : String) : RepoState :=
  (initialCommitT s msg).1

-- ## Branch orchestration

/-- FPath of the project README. -/
def readmePath : FPath := ["README.md"]

/-- The literal README contents written by `_write_branch_readme`. -/
def branchReadmeContent (projectName : String) : String :=
  "# " ++ projectName ++ "\n\n" ++
  "## Workshop instructions\n\n" ++
  "You are currently on the **correction** branch.\n" ++
  "This project contains **2 branches**:\n\n" ++
  "- **main** → used to introduce the theme of your workshop.\n" ++
  "- **correction** → where you should implement everything you want to do.\n\n" ++
  "After fully implementig this branch, you can create additional branches for each difficulty level " ++
  "(for example: `easy`, `intermediate`, `hard`).\n" ++
  "To do so, use the following command:\n\n" ++
  "```bash\n" ++
  "git checkout -b <branch-name>\n" ++
  "```\n"

/-- `_write_branch_readme`: unlink the README (missing file tolerated) and
write the fixed branch README. -/
def writeBranchReadme (fs : FS) (projectName : String) : FS :=
  setFile (delFile fs readmePath) readmePath
    (FileData.text (branchReadmeContent projectName))

/-- Loop body of `_create_difficulty_branches`: `git checkout -b br`
(`check=True`, so failure aborts), write the branch README, `_safe_commit`.
The trailing `_run_precommit_check` is non-strict and modelled as leaving
the repository unchanged. -/
def createBranchStep (pn : String) (s : RepoState) (br : String) : Option RepoState :=
  match checkoutNewBranch s br with
  | none => none
  | some s1 =>
      let s2 := { s1 with worktree := writeBranchReadme s1.worktree pn }
      some (safeCommit s2 "initializing branch with branch-specific README")

/-- The loop of `_create_difficulty_branches`. -/
def goBranches (pn : String) : RepoState → List String → Option RepoState
  | s, [] => some s
  | s, br :: rest =>
      match createBranchStep pn s br with
      | none => none
      | some s1 => goBranches pn s1 rest

/-- `_create_difficulty_branches`: suppressed checkout of main, the loop,
then a suppressed checkout of main again. -/
def createDifficultyBranches (s : RepoState) (branches : List String) (pn : String) :
    Option RepoState :=
  match goBranches pn (checkoutSuppressed s "main") branches with
  | none => none
  | some s1 => some (checkoutSuppressed s1 "main")

-- ## Branch-list parsing

/-- The hard-coded raw branch list of the script. -/
def difficultyBranchesRaw : String := "correction"

/-- Split a character list on commas (`str.split(",")` semantics: the empty
input yields one empty field). -/
def splitChars : List Char → List (List Char)
  | [] => [[]]
  | c :: rest =>
      if c = ',' then [] :: splitChars rest
      else
        match splitChars rest with
        | [] => [[c]]
        | g :: gs => (c :: g) :: gs

/-- `str.strip()` over a character list: drop whitespace at both ends. -/
def stripChars (l : List Char) : List Char :=
  ((l.dropWhile Char.isWhitespace).reverse.dropWhile Char.isWhitespace).reverse

/-- `[b.strip() for b in raw.split(",") if b.strip()]`. -/
def parseBranches (raw : String) : List String :=
  ((splitChars raw.data).map (fun g => String.mk (stripChars g))).filter
    (fun b => b ≠ "")

-- ## Template configuration and filesystem steps

/-- The cookiecutter substitution values the hook reads. -/
structure Cfg where
  include_github_actions : String
  dockerfile : String
  codecov : String
  devcontainer : String
  render : String
  makefile : String
  layout : String
  project_type : String
  project_slug : String
  project_name : String
  create_github_repo : String
deriving DecidableEq

/-- The optional-assets step of `__main__` (lines 260-280): each flag that
is not `"y"` removes its file (unconditionally, missing file tolerated) or
its directory (guarded by an existence check). -/
def applyOptionalAssets (cfg : Cfg) (fs : FS) : FS :=
  let fs1 := if cfg.include_github_actions ≠ "y" ∧ pathExists fs [".github"]
             then delDir fs [".github"] else fs
  let fs2 := if cfg.dockerfile ≠ "y" then delFile fs1 ["Dockerfile"] else fs1
  let fs3 := if cfg.codecov ≠ "y" then delFile fs2 ["codecov.yaml"] else fs2
  let fs4 := if cfg.devcontainer ≠ "y" ∧ pathExists fs3 [".devcontainer"]
             then delDir fs3 [".devcontainer"] else fs3
  let fs5 := if cfg.render ≠ "y" then delFile fs4 ["render.yaml"] else fs4
  if cfg.makefile ≠ "y" then delFile fs5 ["Makefile"] else fs5

/-- `_slug_dir_path`. -/
def slugDirPath (cfg : Cfg) : FPath :=
  if cfg.layout = "src" then ["src", cfg.project_slug] else [cfg.project_slug]

/-- The layout step of `__main__` (lines 283-293). -/
def applyLayout (cfg : Cfg) (fs : FS) : FS :=
  if cfg.layout = "src" then
    let fs1 := if pathExists fs ["src"] then delDir fs ["src"] else fs
    if pathExists fs1 [cfg.project_slug] then
      fs1.map (fun e =>
        if underDir [cfg.project_slug] e.1 then (("src" :: e.1 : FPath), e.2) else e)
    else fs1
  else if cfg.layout = "flat" ∧ pathExists fs ["src"] then delDir fs ["src"]
  else fs

/-- The notebook stub dict of `__main__` (lines 308-325), verbatim. -/
def notebookContent (projectName : String) : Notebook :=
  { cells := [{ cell_type := "markdown",
                source := ["## Welcome to " ++ projectName ++ " notebook\n",
                           "Implement features for your workshop."] }],
    metadata := { kernelspec := { display_name := "Python 3", language := "python",
                                  name := "python3" },
                  language_info := { name := "python", version := "3" } },
    nbformat := 4,
    nbformat_minor := 5 }

/-- The project-type step of `__main__` (lines 296-331): the slug directory
is created (implicit for an association-list tree); the notebook type
writes the stub and removes `main.py` and `__init__.py` from the slug
directory. -/
def applyProjectType (cfg : Cfg) (fs : FS) : FS :=
  if cfg.project_type = "notebook" then
    let fs1 := setFile fs (slugDirPath cfg ++ [cfg.project_slug ++ ".ipynb"])
      (FileData.nb (notebookContent cfg.project_name))
    let fs2 := if (lk fs1 (slugDirPath cfg ++ ["main.py"])).isSome
               then delFile fs1 (slugDirPath cfg ++ ["main.py"]) else fs1
    if (lk fs2 (slugDirPath cfg ++ ["__init__.py"])).isSome
    then delFile fs2 (slugDirPath cfg ++ ["__init__.py"]) else fs2
  else fs

/-- The final clean-up of the main branch (lines 427-459): `git switch
main` (skipping everything on failure), recreate a minimal README when
absent, delete every top-level entry except `README.md` and `.git`, and
`_safe_commit` when anything was deleted. -/
def finalCleanup (pn : String) (s : RepoState) : RepoState :=
  match checkoutExisting s "main" with
  | none => s
  | some s1 =>
      let wt1 := if (lk s1.worktree readmePath).isSome then s1.worktree
                 else setFile s1.worktree readmePath (FileData.text ("# " ++ pn ++ "\n"))
      let deleted := wt1.any (fun e => decide (topName e.1 ≠ "README.md"))
      let wt2 := wt1.filter (fun e => decide (topName e.1 = "README.md"))
      let s2 := { s1 with worktree := wt2 }
      if deleted then safeCommit s2 "main: clean workspace, keep README only" else s2

/-- FPath of the generated requirements file. -/
def reqPath : FPath := ["requirements.txt"]

/-- The requirements step of `__main__` (lines 462-468): when the file
exists, stage only it, and commit (exit code suppressed) exactly when its
staged copy differs from the tip copy. -/
def requirementsStep (s : RepoState) : RepoState :=
  match lk s.worktree reqPath with
  | none => s
  | some v =>
      if lk (currentTip s) reqPath ≠ some v then
        commitOnTree s (setFile (currentTip s) reqPath v)
          "chore: add generated requirements.txt"
      else s

/-- `__main__`, run in the modelled environment (git available and `git
init -b` working, uv / pre-commit / gh executables absent) on a freshly
rendered project directory `fs0`.  Under that environment the
`create_github_repo` arms perform the same local git work, gh being
absent; the final push is the informational no-op because no remote was
ever configured. -/
def runMain (cfg : Cfg) (fs0 : FS) : Option RepoState :=
  let s1 := initRepo "main" fs0
  let s2 := { s1 with worktree := applyOptionalAssets cfg s1.worktree }
  let s3 := { s2 with worktree := applyLayout cfg s2.worktree }
  let s4 := { s3 with worktree := applyProjectType cfg s3.worktree }
  let s5 := commitAllSuppressed s4 "Initial commit"
  match createDifficultyBranches s5 (parseBranches difficultyBranchesRaw)
      cfg.project_name with
  | none => none
  | some s6 => some (requirementsStep (finalCleanup cfg.project_name s6))

-- ## EnsureRepository environment model

/-- Outcomes of the external commands `_ensure_git_repo` may run. -/
structure GitEnv where
  gitPresent : Bool
  insideRepo : Bool
  initBSucceeds : Bool
  plainInitSucceeds : Bool
  checkoutNewSucceeds : Bool
  plainInitDefaultBranch : String
deriving DecidableEq

/-- Result of `_ensure_git_repo`. -/
inductive EnsureRepoResult where
  | unchanged
  | repoWithBranch (b : String)
  | aborted
deriving DecidableEq

/-- `_ensure_git_repo`: a no-op when git is missing or a repository already
exists; otherwise `git init -b default`, falling back on failure to plain
`git init` followed by a suppressed `git checkout -b default`.  A failure
of the plain `git init` is raised outside any `suppress` block, so it
escapes and aborts the run. -/
def ensureGitRepo (env : GitEnv) (defaultBranch : String) : EnsureRepoResult :=
  if env.gitPresent = false ∨ env.insideRepo then EnsureRepoResult.unchanged
  else if env.initBSucceeds then EnsureRepoResult.repoWithBranch defaultBranch
  else if env.plainInitSucceeds then
    if env.checkoutNewSucceeds then EnsureRepoResult.repoWithBranch defaultBranch
    else EnsureRepoResult.repoWithBranch env.plainInitDefaultBranch
  else EnsureRepoResult.aborted

-- ## Final push model

/-- Outcomes of the push commands. -/
structure PushEnv where
  pushAllSucceeds : Bool
  pushTagsSucceeds : Bool
deriving DecidableEq

/-- Observable outcome of the final-push step. -/
inductive PushOutcome where
  | pushedAll
  | pushFailedMsg
  | skippedNoRemote
deriving DecidableEq

/-- The final-push step (lines 470-481): when an `origin` remote exists,
`git push -u origin --all`, then best-effort `git push -u origin --tags`;
a push failure is caught and reported.  Without a remote, an informational
message and no push command at all.  Returns the outcome and the number of
push commands invoked. -/
def finalPush (s : RepoState) (env : PushEnv) : PushOutcome × Nat :=
  if s.remoteOrigin.isSome then
    if env.pushAllSucceeds then (PushOutcome.pushedAll, 2)
    else (PushOutcome.pushFailedMsg, 1)
  else (PushOutcome.skippedNoRemote, 0)

-- ## gh protocol model

/-- ASCII lowercasing of one character (`str.lower` on the ASCII output of
`gh config get git_protocol`). -/
def lowerChar (c : Char) : Char :=
  if 'A' ≤ c ∧ c ≤ 'Z' then Char.ofNat (c.toNat + 32) else c

/-- `(cp.stdout or "").strip().lower()`. -/
def stripLower (s : String) : String :=
  String.mk ((stripChars s.data).map lowerChar)

/-- `_gh_git_protocol`: `"https"` when gh is absent; otherwise `"ssh"`
exactly when the trimmed lowercased output of `gh config get git_protocol`
is `"ssh"`, and `"https"` in every other case. -/
def ghGitProtocol (ghPresent : Bool) (stdout : Option String) : String :=
  if ghPresent = false then "https"
  else if stripLower (stdout.getD "") = "ssh" then "ssh" else "https"

/-- The SSH remote URL `_ensure_remote_origin` builds. -/
def sshUrl (owner name : String) : String :=
  "git@github.com:" ++ owner ++ "/" ++ name ++ ".git"

/-- The HTTPS remote URL `_ensure_remote_origin` builds. -/
def httpsUrl (owner name : String) : String :=
  "https://github.com/" ++ owner ++ "/" ++ name ++ ".git"

/-- `_ensure_remote_origin`: build the URL from the detected protocol, then
`git remote add origin url`, falling back to `git remote set-url origin
url` when the remote already exists — either way `origin` ends at `url`. -/
def ensureRemoteOrigin (ghPresent : Bool) (stdout : Option String) (s : RepoState)
    (owner name : String) : RepoState :=
  let url := if ghGitProtocol ghPresent stdout = "ssh" then sshUrl owner name
             else httpsUrl owner name
  { s with remoteOrigin := some url }

-- ## Auxiliary observations

/-- Number of commits reachable from the checked-out branch. -/
def commitCount (s : RepoState) : Nat :=
  (branchHistory s s.current).length

/-- No two consecutive commits of a history share a tree. -/
def adjDistinct : List Commit → Bool
  | [] => true
  | [_] => true
  | a :: b :: rest => decide (a.tree ≠ b.tree) && adjDistinct (b :: rest)

-- ## Concrete states and configurations used by witnesses

/-- Modelled from the spec: the template-expansion step (the cookiecutter
template directory, which is not part of the analysed source tree) renders
the project directory before the hook runs, producing the README, the
manifest, every optional asset, the starter slug package and the test
stubs.  Purpose of the run per the spec: remove the optional files the
user opted out of, so each optional asset starts present. -/
def templateFS (slug : String) : FS :=
  [ (["README.md"], FileData.text "# template readme\n"),
    (["pyproject.toml"], FileData.text "[project]\n"),
    (["Dockerfile"], FileData.text "FROM python\n"),
    (["Makefile"], FileData.text "help:\n"),
    (["codecov.yaml"], FileData.text "coverage:\n"),
    (["render.yaml"], FileData.text "services:\n"),
    ([".github", "workflows", "main.yml"], FileData.text "on: push\n"),
    ([".devcontainer", "devcontainer.json"], FileData.text "container\n"),
    ([slug, "__init__.py"], FileData.text ""),
    ([slug, "main.py"], FileData.text "print\n"),
    (["tests", "test_main.py"], FileData.text "def test_ok\n") ]

/-- A small committed tree used by concrete states. -/
def exTree : FS :=
  [(["README.md"], FileData.text "# p\n"), (["f.txt"], FileData.text "x")]

/-- A clean one-commit repository on `main`. -/
def exState : RepoState :=
  { branches := [("main", [⟨0, "Initial commit", exTree⟩])],
    current := "main", worktree := exTree,
    nextId := 1, remoteOrigin := none, log := [] }

/-- `exState` with an extra unstaged file (a dirty tree). -/
def exDirty : RepoState :=
  { exState with worktree := setFile exTree ["g.txt"] (FileData.text "y") }

/-- The configuration of the end-to-end scenario of the spec: dockerfile
off, src layout, no GitHub repo creation. -/
def cfg6 : Cfg :=
  { include_github_actions := "n", dockerfile := "n", codecov := "n",
    devcontainer := "n", render := "n", makefile := "n", layout := "src",
    project_type := "python", project_slug := "my_project",
    project_name := "My Project", create_github_repo := "n" }

/-- A configuration that keeps the Dockerfile (`dockerfile = "y"`). -/
def cfg4 : Cfg := { cfg6 with dockerfile := "y", layout := "flat" }

/-- A configuration carrying the six boolean include-flags, all other
values fixed. -/
def mkFlagsCfg (ga df cc dv rd mkf : String) : Cfg :=
  { include_github_actions := ga, dockerfile := df, codecov := cc,
    devcontainer := dv, render := rd, makefile := mkf, layout := "flat",
    project_type := "python", project_slug := "my_project",
    project_name := "My Project", create_github_repo := "n" }

/-- Environment without a git executable. -/
def envNoGit : GitEnv :=
  { gitPresent := false, insideRepo := false, initBSucceeds := true,
    plainInitSucceeds := true, checkoutNewSucceeds := true,
    plainInitDefaultBranch := "master" }

/-- Environment in which both init commands fail outside a repository. -/
def envBothInitsFail : GitEnv :=
  { gitPresent := true, insideRepo := false, initBSucceeds := false,
    plainInitSucceeds := false, checkoutNewSucceeds := true,
    plainInitDefaultBranch := "master" }

-- ## Helper lemmas

theorem lk_setBranch_self (bs : List (String × List Commit)) (b : String)
    (h : List Commit) : lk (setBranch bs b h) b = some h := by
  induction bs with
  | nil => simp [setBranch, lk]
  | cons e rest ih =>
      by_cases he : e.1 = b
      · simp [setBranch, he, lk]
      · simp [setBranch, he, lk, ih]

theorem lk_setBranch_ne (bs : List (String × List Commit)) (b b' : String)
    (h : List Commit) (hne : b' ≠ b) : lk (setBranch bs b h) b' = lk bs b' := by
  have hbb : ¬ b = b' := fun he => hne he.symm
  induction bs with
  | nil => simp [setBranch, lk, hbb]
  | cons e rest ih =>
      by_cases he : e.1 = b
      · subst he
        simp [setBranch, lk, hbb]
      · simp [setBranch, he, lk, ih]

theorem setBranch_length (bs : List (String × List Commit)) (b : String)
    (h : List Commit) (hb : (lk bs b).isSome) :
    (setBranch bs b h).length = bs.length := by
  induction bs with
  | nil => simp [lk] at hb
  | cons e rest ih =>
      by_cases he : e.1 = b
      · simp [setBranch, he]
      · simp [lk, he] at hb
        simp [setBranch, he, ih hb]

theorem lk_setFile_self (fs : FS) (p : FPath) (v : FileData) :
    lk (setFile fs p v) p = some v := by
  unfold setFile
  induction fs with
  | nil => simp [delFile, lk]
  | cons e rest ih =>
      by_cases he : e.1 = p
      · simpa [delFile, he] using ih
      · simpa [delFile, he, lk] using ih

theorem lk_writeBranchReadme (fs : FS) (pn : String) :
    lk (writeBranchReadme fs pn) readmePath
      = some (FileData.text (branchReadmeContent pn)) :=
  lk_setFile_self _ _ _

theorem ne_of_lk_ne {fs fs' : FS} {p : FPath}
    (h : lk fs p ≠ lk fs' p) : fs ≠ fs' := fun he => h (he ▸ rfl)

theorem branchHistory_commitOn_self (s : RepoState) (m : String) :
    branchHistory (commitOn s m) s.current
      = ⟨s.nextId, m, s.worktree⟩ :: branchHistory s s.current := by
  simp [branchHistory, commitOn, commitOnTree, lk_setBranch_self]

theorem currentTip_commitOn (s : RepoState) (m : String) :
    currentTip (commitOn s m) = s.worktree := by
  have h1 : (commitOn s m).current = s.current := rfl
  unfold currentTip
  rw [h1, branchHistory_commitOn_self]
  rfl

theorem lk_commitOn_ne (s : RepoState) (m : String) (b : String)
    (h : b ≠ s.current) : lk (commitOn s m).branches b = lk s.branches b := by
  unfold commitOn commitOnTree
  exact lk_setBranch_ne _ _ _ _ h

theorem safeCommit_eq (s : RepoState) (m : String) :
    safeCommit s m = if s.worktree = currentTip s then s else commitOn s m := by
  unfold safeCommit safeCommitT
  split <;> rfl

theorem safeCommit_current (s : RepoState) (m : String) :
    (safeCommit s m).current = s.current := by
  rw [safeCommit_eq]; split <;> rfl

theorem lk_safeCommit_ne (s : RepoState) (m : String) (b : String)
    (h : b ≠ s.current) : lk (safeCommit s m).branches b = lk s.branches b := by
  rw [safeCommit_eq]; split
  · rfl
  · exact lk_commitOn_ne s m b h

theorem mem_branchHistory_safeCommit (s : RepoState) (m : String) {c : Commit}
    (hc : c ∈ branchHistory s s.current) :
    c ∈ branchHistory (safeCommit s m) (safeCommit s m).current := by
  rw [safeCommit_eq]; split
  · exact hc
  · rw [show (commitOn s m).current = s.current from rfl, branchHistory_commitOn_self]
    exact List.mem_cons_of_mem _ hc

theorem safeCommit_branches_length (s : RepoState) (m : String)
    (hb : (lk s.branches s.current).isSome) :
    (safeCommit s m).branches.length = s.branches.length := by
  rw [safeCommit_eq]; split
  · rfl
  · exact setBranch_length _ _ _ hb

theorem lk_safeCommit_isSome (s : RepoState) (m : String) (b : String)
    (hb : (lk s.branches s.current).isSome) :
    (lk (safeCommit s m).branches b).isSome = (lk s.branches b).isSome := by
  by_cases h : b = s.current
  · subst h
    rw [safeCommit_eq]; split
    · rfl
    · unfold commitOn commitOnTree
      simp [lk_setBranch_self, hb]
  · rw [lk_safeCommit_ne s m b h]

-- ## Claims

/-- C3: `_safe_commit` stages everything and commits only when the staged
state is non-empty.  Calling it twice with no intervening filesystem change
yields exactly one commit when a change was pending and none otherwise, and
it preserves the invariant that no two consecutive commits of the current
branch share a tree. -/
theorem claim3_safeCommit (s : RepoState) (m1 m2 : String) :
    (s.worktree = currentTip s → safeCommit (safeCommit s m1) m2 = s) ∧
    (s.worktree ≠ currentTip s →
      commitCount (safeCommit (safeCommit s m1) m2) = commitCount s + 1) ∧
    (adjDistinct (branchHistory s s.current) = true →
      adjDistinct (branchHistory (safeCommit (safeCommit s m1) m2)
        (safeCommit (safeCommit s m1) m2).current) = true) := by
  by_cases h : s.worktree = currentTip s
  · have h1 : safeCommit s m1 = s := by rw [safeCommit_eq, if_pos h]
    have h2 : safeCommit (safeCommit s m1) m2 = s := by
      rw [h1, safeCommit_eq, if_pos h]
    refine ⟨fun _ => h2, fun hc => absurd h hc, fun ha => ?_⟩
    rw [h2]
    exact ha
  · have h1 : safeCommit s m1 = commitOn s m1 := by rw [safeCommit_eq, if_neg h]
    have hclean : (commitOn s m1).worktree = currentTip (commitOn s m1) := by
      rw [currentTip_commitOn]; rfl
    have h2 : safeCommit (safeCommit s m1) m2 = commitOn s m1 := by
      rw [h1, safeCommit_eq, if_pos hclean]
    have hcur : (commitOn s m1).current = s.current := rfl
    refine ⟨fun hc => absurd hc h, fun _ => ?_, fun ha => ?_⟩
    · rw [h2]
      unfold commitCount
      rw [hcur, branchHistory_commitOn_self]
      simp
    · rw [h2, hcur, branchHistory_commitOn_self]
      rcases hh : branchHistory s s.current with _ | ⟨c, t⟩
      · simp [adjDistinct]
      · rw [hh] at ha
        have hne : s.worktree ≠ c.tree := by
          intro he
          exact h (by rw [he]; unfold currentTip; rw [hh]; rfl)
        simp [adjDistinct, hne, ha]

/-- C3 witness: on a concrete dirty state, two consecutive `_safe_commit`
calls add exactly one commit. -/
theorem claim3_witness :
    commitCount (safeCommit (safeCommit exDirty "m1") "m2") = commitCount exDirty + 1 :=
  (claim3_safeCommit exDirty "m1" "m2").2.1 (by decide)

/-- C5 counterexample: the initial-commit site of `__main__` runs
`git commit` on an empty stage and handles the resulting non-zero exit code
by suppressing it, instead of checking the stage first — contradicting the
claim that every commit performed by the script distinguishes the
empty-stage case by checking the stage contents and never by interpreting
the commit command's exit code. -/
theorem claim5_counterexample :
    (initialCommitT exState "Initial commit").2 = CommitTrace.exitCodeSuppressed := by
  decide

/-- C5 amended: `_safe_commit` never relies on a suppressed commit exit
code (it checks the stage first), while the initial-commit pattern invokes
the commit command unconditionally and swallows its non-zero exit exactly
when the stage is empty. -/
theorem claim5_amended_commit_gating (s : RepoState) (m : String) :
    (safeCommitT s m).2 ≠ CommitTrace.exitCodeSuppressed ∧
    ((initialCommitT s m).2 = CommitTrace.exitCodeSuppressed ↔
      s.worktree = currentTip s) := by
  unfold safeCommitT initialCommitT
  by_cases h : s.worktree = currentTip s <;> simp [h]

/-- C7 counterexample: when git is present, no repository exists and both
`git init -b main` and plain `git init` fail, `_ensure_git_repo` lets the
`CalledProcessError` of the plain init escape and the run aborts —
contradicting the claim that it never aborts when neither path succeeds. -/
theorem claim7_counterexample :
    ensureGitRepo envBothInitsFail "main" = EnsureRepoResult.aborted := by
  decide

/-- C7 amended: `_ensure_git_repo` is a no-op when a repository already
exists (or git is absent); otherwise it initializes with `git init -b`,
falling back to plain `git init` plus a suppressed `git checkout -b`; it
aborts the run exactly when a repository must be created and both init
commands fail. -/
theorem claim7_amended_ensureGitRepo (env : GitEnv) (b : String) :
    ((env.gitPresent = false ∨ env.insideRepo = true) →
      ensureGitRepo env b = EnsureRepoResult.unchanged) ∧
    (ensureGitRepo env b = EnsureRepoResult.aborted ↔
      env.gitPresent = true ∧ env.insideRepo = false ∧
      env.initBSucceeds = false ∧ env.plainInitSucceeds = false) ∧
    ((env.initBSucceeds = true ∨
        (env.plainInitSucceeds = true ∧ env.checkoutNewSucceeds = true)) →
      env.gitPresent = true → env.insideRepo = false →
      ensureGitRepo env b = EnsureRepoResult.repoWithBranch b) := by
  obtain ⟨g, i, ib, pi, co, d⟩ := env
  cases g <;> cases i <;> cases ib <;> cases pi <;> cases co <;>
    simp [ensureGitRepo]

/-- C7 witness: with git absent, `_ensure_git_repo` is a no-op. -/
theorem claim7_witness :
    ensureGitRepo envNoGit "main" = EnsureRepoResult.unchanged :=
  (claim7_amended_ensureGitRepo envNoGit "main").1 (Or.inl rfl)

/-- C8: the final publish step pushes iff an `origin` remote is
configured; with none it invokes zero push commands and ends with the
informational skip outcome rather than an error. -/
theorem claim8_finalPush (s : RepoState) (env : PushEnv) :
    (s.remoteOrigin = none → finalPush s env = (PushOutcome.skippedNoRemote, 0)) ∧
    (0 < (finalPush s env).2 ↔ s.remoteOrigin.isSome = true) := by
  cases h : s.remoteOrigin <;> cases hp : env.pushAllSucceeds <;>
    simp [finalPush, h, hp]

/-- C8 witness: on a concrete remoteless state, the final push is the
zero-push informational skip. -/
theorem claim8_witness :
    finalPush exState { pushAllSucceeds := true, pushTagsSucceeds := true }
      = (PushOutcome.skippedNoRemote, 0) :=
  (claim8_finalPush exState _).1 rfl

/-- C9: the generated notebook stub has exactly one cell, that cell is a
markdown cell, and the notebook format version is 4.5 (`nbformat 4`,
`nbformat_minor 5`). -/
theorem claim9_notebook_shape (pn : String) :
    (notebookContent pn).cells.length = 1 ∧
    (∀ c ∈ (notebookContent pn).cells, c.cell_type = "markdown") ∧
    (notebookContent pn).nbformat = 4 ∧
    (notebookContent pn).nbformat_minor = 5 := by
  refine ⟨rfl, ?_, rfl, rfl⟩
  intro c hc
  simp [notebookContent] at hc
  rw [hc]

/-- C10: `_gh_git_protocol` is total and deterministic — it returns
`"ssh"` exactly when gh is present and the trimmed lowercased
configuration output is `"ssh"`, and `"https"` otherwise (gh absent
included); consequently `_ensure_remote_origin` always sets `origin` to
either the SSH or the HTTPS GitHub URL for `owner/name`. -/
theorem claim10_gh_protocol (gh : Bool) (out : Option String) (s : RepoState)
    (owner name : String) :
    (ghGitProtocol gh out = "ssh" ↔
      gh = true ∧ stripLower (out.getD "") = "ssh") ∧
    (ghGitProtocol gh out = "ssh" ∨ ghGitProtocol gh out = "https") ∧
    ((ensureRemoteOrigin gh out s owner name).remoteOrigin
        = some (sshUrl owner name) ∨
     (ensureRemoteOrigin gh out s owner name).remoteOrigin
        = some (httpsUrl owner name)) := by
  cases gh
  · simp [ghGitProtocol, ensureRemoteOrigin]
  · by_cases h : stripLower (out.getD "") = "ssh" <;>
      simp [ghGitProtocol, ensureRemoteOrigin, h]

-- ## Branch-sequence lemmas

theorem setBranch_cons_self (k : String) (v : List Commit)
    (rest : List (String × List Commit)) (h : List Commit) :
    setBranch ((k, v) :: rest) k h = (k, h) :: rest := by
  simp [setBranch]

theorem checkoutSuppressed_some (s : RepoState) (b : String) (h : List Commit)
    (hb : lk s.branches b = some h) (hne : h ≠ []) :
    checkoutSuppressed s b = { s with current := b, worktree := tipTree h } := by
  unfold checkoutSuppressed checkoutExisting
  rw [hb]
  cases h with
  | nil => exact absurd rfl hne
  | cons c t => rfl

theorem createBranchStep_commits (pn : String) (s : RepoState) (n : String)
    (hist : List Commit)
    (hn : lk s.branches n = none)
    (hcur : branchHistory s s.current = hist)
    (hwt : s.worktree = tipTree hist)
    (hres : lk (tipTree hist) readmePath
      ≠ some (FileData.text (branchReadmeContent pn))) :
    createBranchStep pn s n = some
      { branches := (n, (⟨s.nextId, "initializing branch with branch-specific README",
            writeBranchReadme (tipTree hist) pn⟩ : Commit) :: hist) :: s.branches,
        current := n,
        worktree := writeBranchReadme (tipTree hist) pn,
        nextId := s.nextId + 1,
        remoteOrigin := s.remoteOrigin,
        log := s.log ++ [(n, hist)] } := by
  have hck : checkoutNewBranch s n = some
      { s with branches := (n, hist) :: s.branches, current := n,
               log := s.log ++ [(n, hist)] } := by
    unfold checkoutNewBranch
    rw [hn, hcur]
    rfl
  unfold createBranchStep
  rw [hck]
  show some (safeCommit
      ⟨(n, hist) :: s.branches, n, writeBranchReadme s.worktree pn, s.nextId,
        s.remoteOrigin, s.log ++ [(n, hist)]⟩
      "initializing branch with branch-specific README") = _
  rw [hwt]
  have hct : currentTip
      ⟨(n, hist) :: s.branches, n, writeBranchReadme (tipTree hist) pn, s.nextId,
        s.remoteOrigin, s.log ++ [(n, hist)]⟩ = tipTree hist := by
    unfold currentTip branchHistory
    simp [lk]
  have hcond : ((⟨(n, hist) :: s.branches, n, writeBranchReadme (tipTree hist) pn,
      s.nextId, s.remoteOrigin, s.log ++ [(n, hist)]⟩ : RepoState)).worktree
      ≠ currentTip ⟨(n, hist) :: s.branches, n, writeBranchReadme (tipTree hist) pn,
        s.nextId, s.remoteOrigin, s.log ++ [(n, hist)]⟩ := by
    rw [hct]
    exact ne_of_lk_ne (by rw [lk_writeBranchReadme]; exact fun he => hres he.symm)
  rw [safeCommit_eq, if_neg hcond]
  unfold commitOn commitOnTree
  simp [branchHistory, lk, setBranch_cons_self]

theorem goBranches_spec (pn : String) (c0 : Commit) :
    ∀ (rest : List String) (s : RepoState),
      c0 ∈ branchHistory s s.current →
      (∀ m ∈ rest, lk s.branches m = none) →
      rest.Nodup →
      ∃ s', goBranches pn s rest = some s' ∧
        (∀ b h, lk s.branches b = some h → lk s'.branches b = some h) ∧
        (∀ b, (lk s'.branches b).isSome = true ↔
          ((lk s.branches b).isSome = true ∨ b ∈ rest)) ∧
        s'.branches.length = s.branches.length + rest.length ∧
        (∀ m ∈ rest, c0 ∈ branchHistory s' m) ∧
        c0 ∈ branchHistory s' s'.current := by
  intro rest
  induction rest with
  | nil =>
      intro s hc _ _
      exact ⟨s, rfl, fun b h hb => hb, by simp, by simp, by simp, hc⟩
  | cons m rest ih =>
      intro s hc hfresh hnd
      have hm : lk s.branches m = none := hfresh m (List.mem_cons_self m rest)
      have hck : checkoutNewBranch s m = some
          { s with branches := (m, branchHistory s s.current) :: s.branches,
                   current := m,
                   log := s.log ++ [(m, branchHistory s s.current)] } := by
        unfold checkoutNewBranch
        rw [hm]
        rfl
      set s2 : RepoState :=
        ⟨(m, branchHistory s s.current) :: s.branches, m,
          writeBranchReadme s.worktree pn, s.nextId, s.remoteOrigin,
          s.log ++ [(m, branchHistory s s.current)]⟩ with hs2
      have hcs : createBranchStep pn s m
          = some (safeCommit s2 "initializing branch with branch-specific README") := by
        unfold createBranchStep
        rw [hck]
      have hgo : goBranches pn s (m :: rest)
          = goBranches pn (safeCommit s2 "initializing branch with branch-specific README")
              rest := by
        rw [goBranches, hcs]
      set s3 := safeCommit s2 "initializing branch with branch-specific README" with hs3
      have hs2cur : s2.current = m := rfl
      have hlk2self : lk s2.branches m = some (branchHistory s s.current) := by
        simp [hs2, lk]
      have hlk2ne : ∀ b, b ≠ m → lk s2.branches b = lk s.branches b := by
        intro b hb
        simp [hs2, lk, show ¬ m = b from fun h => hb h.symm]
      have hs3cur : s3.current = m := by
        rw [hs3, safeCommit_current]
      have hc3 : c0 ∈ branchHistory s3 s3.current := by
        rw [hs3]
        refine mem_branchHistory_safeCommit s2 _ ?_
        rw [hs2cur]
        unfold branchHistory
        rw [hlk2self]
        exact hc
      have h2some : (lk s2.branches s2.current).isSome = true := by
        rw [hs2cur, hlk2self]; rfl
      have hlk3ne : ∀ b, b ≠ m → lk s3.branches b = lk s.branches b := by
        intro b hb
        rw [hs3, lk_safeCommit_ne s2 _ b hb, hlk2ne b hb]
      have hisSome3 : ∀ b, (lk s3.branches b).isSome = (lk s2.branches b).isSome :=
        fun b => hs3 ▸ lk_safeCommit_isSome s2 _ b h2some
      have hlen3 : s3.branches.length = s.branches.length + 1 := by
        rw [hs3, safeCommit_branches_length s2 _ h2some]
        rfl
      have hmnr : m ∉ rest := (List.nodup_cons.mp hnd).1
      have hfresh3 : ∀ mm ∈ rest, lk s3.branches mm = none := by
        intro mm hmm
        have : mm ≠ m := fun he => hmnr (he ▸ hmm)
        rw [hlk3ne mm this]
        exact hfresh mm (List.mem_cons_of_mem m hmm)
      obtain ⟨s', hgo', hpres, hchar, hlen, hmem, hccur⟩ :=
        ih s3 hc3 hfresh3 (List.nodup_cons.mp hnd).2
      refine ⟨s', by rw [hgo]; exact hgo', ?_, ?_, ?_, ?_, hccur⟩
      · intro b h hb
        have hbm : b ≠ m := by
          intro he
          rw [he, hm] at hb
          cases hb
        exact hpres b h (by rw [hlk3ne b hbm]; exact hb)
      · intro b
        rw [hchar b, hisSome3 b]
        by_cases hbm : b = m
        · subst hbm
          simp [hlk2self, List.mem_cons]
        · rw [hlk2ne b hbm]
          simp [List.mem_cons, hbm]
      · rw [hlen, hlen3, List.length_cons]
        omega
      · intro mm hmm
        rcases List.mem_cons.mp hmm with he | hr
        · subst he
          have hcm : c0 ∈ branchHistory s3 mm := by rw [← hs3cur]; exact hc3
          unfold branchHistory at hcm
          rcases hlk : lk s3.branches mm with _ | hh
          · rw [hlk] at hcm; cases hcm
          · rw [hlk] at hcm
            have := hpres mm hh hlk
            unfold branchHistory
            rw [this]
            exact hcm
        · exact hmem mm hr

/-- C1: for an ordered list of fresh, distinct branch names, starting from
a state whose `main` branch has at least one commit and whose README at the
`main` tip differs from the generated branch README,
`_create_difficulty_branches` succeeds, creates exactly one new branch per
name, each created branch contains at least one commit not present on
`main`, and the checked-out branch afterwards is `main`. -/
theorem claim1_createBranchSequence (s : RepoState) (names : List String)
    (pn : String) (hist : List Commit)
    (hm : lk s.branches "main" = some hist)
    (hne : hist ≠ [])
    (hres : lk (tipTree hist) readmePath
      ≠ some (FileData.text (branchReadmeContent pn)))
    (hfresh : ∀ n ∈ names, lk s.branches n = none)
    (hnd : names.Nodup)
    (hids : ∀ c ∈ hist, c.id < s.nextId) :
    ∃ s', createDifficultyBranches s names pn = some s' ∧
      s'.current = "main" ∧
      lk s'.branches "main" = some hist ∧
      (∀ b, (lk s'.branches b).isSome = true ↔
        ((lk s.branches b).isSome = true ∨ b ∈ names)) ∧
      s'.branches.length = s.branches.length + names.length ∧
      (∀ n ∈ names, ∃ c ∈ branchHistory s' n, c ∉ branchHistory s' "main") := by
  have hs0 : checkoutSuppressed s "main"
      = { s with current := "main", worktree := tipTree hist } :=
    checkoutSuppressed_some s "main" hist hm hne
  set s0 : RepoState := { s with current := "main", worktree := tipTree hist }
    with hs0d
  cases names with
  | nil =>
      refine ⟨s0, ?_, rfl, hm, by simp, by simp, by simp⟩
      unfold createDifficultyBranches
      rw [hs0]
      show some (checkoutSuppressed s0 "main") = some s0
      rw [checkoutSuppressed_some s0 "main" hist hm hne]
  | cons n rest =>
      have hn : lk s.branches n = none := hfresh n (List.mem_cons_self n rest)
      have hnmain : n ≠ "main" := by
        intro he
        rw [he, hm] at hn
        cases hn
      have hcur0 : branchHistory s0 s0.current = hist := by
        show (lk s.branches "main").getD [] = hist
        rw [hm]
        rfl
      set W := writeBranchReadme (tipTree hist) pn with hW
      set c0 : Commit :=
        ⟨s.nextId, "initializing branch with branch-specific README", W⟩ with hc0
      set s3 : RepoState :=
        ⟨(n, c0 :: hist) :: s.branches, n, W, s.nextId + 1, s.remoteOrigin,
          s.log ++ [(n, hist)]⟩ with hs3
      have hstep : createBranchStep pn s0 n = some s3 :=
        createBranchStep_commits pn s0 n hist hn hcur0 rfl hres
      have hgo1 : goBranches pn s0 (n :: rest) = goBranches pn s3 rest := by
        rw [goBranches, hstep]
      have hcur3 : s3.current = n := rfl
      have hlk3self : lk s3.branches n = some (c0 :: hist) := by
        rw [hs3]
        simp [lk]
      have hlk3ne : ∀ b, b ≠ n → lk s3.branches b = lk s.branches b := by
        intro b hb
        rw [hs3]
        simp [lk, show ¬ n = b from fun he => hb he.symm]
      have hc3 : c0 ∈ branchHistory s3 s3.current := by
        rw [hcur3]
        unfold branchHistory
        rw [hlk3self]
        exact List.mem_cons_self _ _
      have hnd' := List.nodup_cons.mp hnd
      have hfresh3 : ∀ mm ∈ rest, lk s3.branches mm = none := by
        intro mm hmm
        have hne1 : mm ≠ n := fun he => hnd'.1 (he ▸ hmm)
        rw [hlk3ne mm hne1]
        exact hfresh mm (List.mem_cons_of_mem n hmm)
      obtain ⟨s4, hgo2, hpres, hchar, hlen4, hmem4, _⟩ :=
        goBranches_spec pn c0 rest s3 hc3 hfresh3 hnd'.2
      have hlk3main : lk s3.branches "main" = some hist := by
        rw [hlk3ne "main" (fun he => hnmain he.symm)]
        exact hm
      have hs4main : lk s4.branches "main" = some hist := hpres "main" hist hlk3main
      have hfin : createDifficultyBranches s (n :: rest) pn
          = some (checkoutSuppressed s4 "main") := by
        unfold createDifficultyBranches
        rw [hs0, hgo1, hgo2]
      have hsupp : checkoutSuppressed s4 "main"
          = { s4 with current := "main", worktree := tipTree hist } :=
        checkoutSuppressed_some s4 "main" hist hs4main hne
      refine ⟨{ s4 with current := "main", worktree := tipTree hist },
        by rw [hfin, hsupp], rfl, hs4main, ?_, ?_, ?_⟩
      · intro b
        show (lk s4.branches b).isSome = true ↔ _
        rw [hchar b]
        by_cases hbn : b = n
        · subst hbn
          rw [hlk3self]
          simp [List.mem_cons]
        · rw [hlk3ne b hbn]
          simp [List.mem_cons, hbn]
      · show s4.branches.length = s.branches.length + (n :: rest).length
        rw [hlen4]
        have h3len : s3.branches.length = s.branches.length + 1 := by
          rw [hs3]
          rfl
        rw [h3len, List.length_cons]
        omega
      · intro nn hnn
        have hc0main : c0 ∉ branchHistory
            ({ s4 with current := "main", worktree := tipTree hist } : RepoState)
            "main" := by
          show c0 ∉ (lk s4.branches "main").getD []
          rw [hs4main]
          intro hmem0
          exact lt_irrefl s.nextId (hids c0 hmem0)
        rcases List.mem_cons.mp hnn with he | hr
        · subst he
          refine ⟨c0, ?_, hc0main⟩
          show c0 ∈ (lk s4.branches nn).getD []
          rw [hpres nn (c0 :: hist) hlk3self]
          exact List.mem_cons_self _ _
        · exact ⟨c0, hmem4 nn hr, hc0main⟩

/-- C1 witness: a concrete run from a one-commit repository with names
`a`, `b`, `c` succeeds and returns to `main` with `main` unchanged. -/
theorem claim1_witness :
    ∃ s', createDifficultyBranches exState ["a", "b", "c"] "proj" = some s' ∧
      s'.current = "main" ∧
      lk s'.branches "main" = some [⟨0, "Initial commit", exTree⟩] := by
  obtain ⟨s', h1, h2, h3, _⟩ := claim1_createBranchSequence exState ["a", "b", "c"]
    "proj" [⟨0, "Initial commit", exTree⟩] (by decide) (by decide) (by decide)
    (by decide) (by decide) (by decide)
  exact ⟨s', h1, h2, h3⟩

set_option maxRecDepth 4000 in
/-- C2 counterexample: requesting two branches from a concrete one-commit
repository refutes the claim that every branch produced by
`_create_difficulty_branches` has a tip differing from its base: the second
branch is created from the first branch's tip and the identical branch
README produces an empty stage, so `_safe_commit` skips and the second
branch's tip equals its base commit. -/
theorem claim2_counterexample :
    (createDifficultyBranches exState ["a", "b"] "p").isSome = true ∧
    ¬ (∀ p ∈ ((createDifficultyBranches exState ["a", "b"] "p").getD exState).log,
        (branchHistory ((createDifficultyBranches exState ["a", "b"] "p").getD exState)
          p.1).head? ≠ p.2.head?) := by
  decide

/-- C2 amended: every branch produced contains a commit absent from `main`
(see C1), but only the first branch of the list is guaranteed a tip
distinct from its base; for the script's own hard-coded list
(`_DIFFICULTY_BRANCHES_RAW = "correction"`, a single branch) every
produced branch's tip does differ from the base it was created from. -/
theorem claim2_amended_branch_tips (s : RepoState) (pn : String)
    (hist : List Commit)
    (hm : lk s.branches "main" = some hist)
    (hne : hist ≠ [])
    (hres : lk (tipTree hist) readmePath
      ≠ some (FileData.text (branchReadmeContent pn)))
    (hfr : lk s.branches "correction" = none)
    (hids : ∀ c ∈ hist, c.id < s.nextId) :
    ∃ s', createDifficultyBranches s (parseBranches difficultyBranchesRaw) pn
        = some s' ∧
      s'.log = s.log ++ [("correction", hist)] ∧
      ∀ p ∈ s'.log.drop s.log.length,
        (branchHistory s' p.1).head? ≠ p.2.head? := by
  have hpb : parseBranches difficultyBranchesRaw = ["correction"] := by decide
  rw [hpb]
  have hs0 : checkoutSuppressed s "main"
      = { s with current := "main", worktree := tipTree hist } :=
    checkoutSuppressed_some s "main" hist hm hne
  set s0 : RepoState := { s with current := "main", worktree := tipTree hist }
    with hs0d
  have hcmain : ("correction" : String) ≠ "main" := by decide
  have hcur0 : branchHistory s0 s0.current = hist := by
    show (lk s.branches "main").getD [] = hist
    rw [hm]
    rfl
  set W := writeBranchReadme (tipTree hist) pn with hW
  set c0 : Commit :=
    ⟨s.nextId, "initializing branch with branch-specific README", W⟩ with hc0
  set s3 : RepoState :=
    ⟨("correction", c0 :: hist) :: s.branches, "correction", W, s.nextId + 1,
      s.remoteOrigin, s.log ++ [("correction", hist)]⟩ with hs3
  have hstep : createBranchStep pn s0 "correction" = some s3 :=
    createBranchStep_commits pn s0 "correction" hist hfr hcur0 rfl hres
  have hgo : goBranches pn s0 ["correction"] = some s3 := by
    rw [goBranches, hstep]
    rfl
  have hlk3main : lk s3.branches "main" = some hist := by
    rw [hs3]
    simp [lk, show ¬ ("correction" : String) = "main" from hcmain]
    exact hm
  have hfin : createDifficultyBranches s ["correction"] pn
      = some (checkoutSuppressed s3 "main") := by
    unfold createDifficultyBranches
    rw [hs0, hgo]
  have hsupp : checkoutSuppressed s3 "main"
      = { s3 with current := "main", worktree := tipTree hist } :=
    checkoutSuppressed_some s3 "main" hist hlk3main hne
  refine ⟨{ s3 with current := "main", worktree := tipTree hist },
    by rw [hfin, hsupp], rfl, ?_⟩
  show ∀ p ∈ (s.log ++ [("correction", hist)]).drop s.log.length, _
  rw [List.drop_left]
  intro p hp
  have hp' : p = ("correction", hist) := by
    simpa using hp
  subst hp'
  show ((lk s3.branches "correction").getD []).head? ≠ hist.head?
  have hlkc : lk s3.branches "correction" = some (c0 :: hist) := by
    rw [hs3]
    simp [lk]
  rw [hlkc]
  cases hist with
  | nil => exact absurd rfl hne
  | cons h0 t =>
      intro he
      have hinj : c0 = h0 := by
        simpa using he
      have := hids h0 (List.mem_cons_self _ _)
      rw [← hinj] at this
      exact lt_irrefl s.nextId this

/-- C2 amended witness: on a concrete one-commit repository with the
hard-coded branch list, the single produced branch's tip differs from its
base. -/
theorem claim2_witness :
    ∃ s', createDifficultyBranches exState (parseBranches difficultyBranchesRaw) "p"
        = some s' ∧
      s'.log = [] ++ [("correction", [⟨0, "Initial commit", exTree⟩])] ∧
      ∀ p ∈ s'.log.drop ([] : List (String × List Commit)).length,
        (branchHistory s' p.1).head? ≠ p.2.head? :=
  claim2_amended_branch_tips exState "p" [⟨0, "Initial commit", exTree⟩]
    (by decide) (by decide) (by decide) (by decide) (by decide)

set_option maxRecDepth 8000 in
/-- C4 counterexample: with `dockerfile = "y"` the full run still ends with
no Dockerfile in the project directory — the final clean-up of `main`
removes every top-level entry except `README.md` — refuting the claim that
each optional asset is present after the run iff its flag is truthy. -/
theorem claim4_counterexample :
    (runMain cfg4 (templateFS "my_project")).isSome = true ∧
    cfg4.dockerfile = "y" ∧
    ¬ ((lk ((runMain cfg4 (templateFS "my_project")).getD exState).worktree
        ["Dockerfile"]).isSome = true ↔ cfg4.dockerfile = "y") := by
  decide

/-- C4 amended: immediately after the optional-assets step each optional
file or directory is present iff its flag is `"y"` (the template renders
all of them); the later clean-up of `main` then strips the working tree
down to `README.md`, so end-of-run presence survives only in the committed
branch trees. -/
theorem claim4_amended_optional_assets (ga df cc dv rd mkf : String) :
    ((lk (applyOptionalAssets (mkFlagsCfg ga df cc dv rd mkf)
        (templateFS "my_project")) ["Dockerfile"]).isSome = true ↔ df = "y") ∧
    ((lk (applyOptionalAssets (mkFlagsCfg ga df cc dv rd mkf)
        (templateFS "my_project")) ["codecov.yaml"]).isSome = true ↔ cc = "y") ∧
    ((lk (applyOptionalAssets (mkFlagsCfg ga df cc dv rd mkf)
        (templateFS "my_project")) ["render.yaml"]).isSome = true ↔ rd = "y") ∧
    ((lk (applyOptionalAssets (mkFlagsCfg ga df cc dv rd mkf)
        (templateFS "my_project")) ["Makefile"]).isSome = true ↔ mkf = "y") ∧
    (pathExists (applyOptionalAssets (mkFlagsCfg ga df cc dv rd mkf)
        (templateFS "my_project")) [".github"] = true ↔ ga = "y") ∧
    (pathExists (applyOptionalAssets (mkFlagsCfg ga df cc dv rd mkf)
        (templateFS "my_project")) [".devcontainer"] = true ↔ dv = "y") := by
  by_cases h1 : ga = "y" <;> by_cases h2 : df = "y" <;> by_cases h3 : cc = "y" <;>
    by_cases h4 : dv = "y" <;> by_cases h5 : rd = "y" <;> by_cases h6 : mkf = "y" <;>
      simp [applyOptionalAssets, mkFlagsCfg, h1, h2, h3, h4, h5, h6] <;> decide

set_option maxRecDepth 8000 in
/-- C6 counterexample: under the spec's end-to-end flags the requested
`easy`/`hard` branch names cannot reach the script — the branch list is the
hard-coded `_DIFFICULTY_BRANCHES_RAW = "correction"` — so the final
repository has no `easy` and no `hard` branch, refuting the claimed final
branch set `main, easy, hard`. -/
theorem claim6_counterexample :
    (runMain cfg6 (templateFS "my_project")).isSome = true ∧
    lk ((runMain cfg6 (templateFS "my_project")).getD exState).branches "easy"
      = none ∧
    lk ((runMain cfg6 (templateFS "my_project")).getD exState).branches "hard"
      = none := by
  decide

set_option maxRecDepth 8000 in
/-- C6 amended: with `dockerfile = "n"`, `layout = "src"` and
`create_github_repo = "n"` the run ends checked out on `main` with exactly
the branches `main` and `correction`, no remote, no Dockerfile anywhere,
the `src/<slug>` and `tests` directories present in the `correction`
branch's committed tree, and the `main` tree (and working tree) reduced to
`README.md` only. -/
theorem claim6_amended_end_to_end :
    (runMain cfg6 (templateFS "my_project")).isSome = true ∧
    (let s := (runMain cfg6 (templateFS "my_project")).getD exState
     s.current = "main" ∧
     s.remoteOrigin = none ∧
     s.branches.map Prod.fst = ["correction", "main"] ∧
     lk s.worktree ["Dockerfile"] = none ∧
     lk (tipTree (branchHistory s "correction")) ["Dockerfile"] = none ∧
     pathExists (tipTree (branchHistory s "correction")) ["src", "my_project"]
       = true ∧
     pathExists (tipTree (branchHistory s "correction")) ["tests"] = true ∧
     (tipTree (branchHistory s "main")).map Prod.fst = [["README.md"]] ∧
     s.worktree.map Prod.fst = [["README.md"]]) := by
  decide
